import Mathlib

/-!
Verification of the reconciliation engine in `scripts/update-issues.ts` of
the developer-signals repository.

The TypeScript source is shallowly embedded: the data model of `web-features`
records, tracker issues and the manifest becomes Lean structures; the engine
(`update`) becomes a pure function from an environment (feature catalog,
browser release tables, skip list, tracker issue listing) and the dry-run
flag to a run outcome (mutation intents, manifest, error).  External
collaborators (the Octokit tracker client, `fetch`, the `dedent` template
helper) are modelled at the narrow interface the engine uses, as the spec
directs: the tracker client is the issue list and the URLs it assigns to
created issues; `dedent` on the two fixed templates of `issueBody` is
applied literally: the uniform source indentation of the constant template
lines is stripped and interpolated values are inserted verbatim.

The per-browser loop of `issueBody` updates its support summary through an
identifier `vendor` that is declared nowhere in scope (the binding created
on the preceding line is `baseBrowser`), so its first iteration throws a
`ReferenceError`.  The embedding keeps this error path: issue-body
generation produces a body only when the browser release table is empty
(the loop body never runs), and fails otherwise.

The engine source file is stored in an encoding where two characters
appear mojibaked; they are U+2264 (the less-than-or-equal sign stripped
from version strings) and U+1F44D (the thumbs-up emoji in the issue body),
and the embedding uses the real characters.

`Array.prototype.sort` (a stable sort) is modelled as stable insertion
sort; `String.prototype.localeCompare`, whose collation tables live in the
platform, is a comparator supplied in the environment.
-/

namespace DevSignals

/-- One entry of a browser's release table in `web-features`. -/
structure Release where
  version : String
  date : String
  deriving Repr, DecidableEq

/-- The data `update-issues.ts` reads from `browsers[b]`: display name and
release list. -/
structure BrowserData where
  name : String
  releases : List Release
  deriving Repr, DecidableEq

/-- `status.baseline` of a feature: absent (falsy) or "low" / "high". -/
inductive BaselineLevel where
  | low
  | high
  deriving Repr, DecidableEq

/-- The lifecycle `kind` of a feature record.  `moved` carries the
`redirect_target` field; `other` stands for any string that is none of the
three known kinds (the default branch of the `switch` in the ranking pass). -/
inductive FeatureKind where
  | feature
  | moved (redirect_target : String)
  | split
  | other (kind : String)
  deriving Repr, DecidableEq

/-- The `discouraged` field of a feature record. -/
structure Discouraged where
  according_to : List String
  deriving Repr, DecidableEq

/-- `data.status`: baseline classification and the per-browser support
table (browser key to version string, `Object.entries` order). -/
structure FeatureStatus where
  baseline : Option BaselineLevel
  baseline_low_date : Option String
  support : List (String × String)
  deriving Repr, DecidableEq

/-- A `web-features` feature record, restricted to the fields the engine
reads. -/
structure FeatureData where
  kind : FeatureKind
  name : String
  description_html : String
  caniuse : Option String
  spec : String
  discouraged : Option Discouraged
  status : FeatureStatus
  deriving Repr, DecidableEq

/-- The reaction counts of a tracker issue (the engine reads only `"+1"`,
the others are carried to state that they are ignored). -/
structure Reactions where
  plus1 : Nat
  minus1 : Nat
  laugh : Nat
  hooray : Nat
  confused : Nat
  heart : Nat
  rocket : Nat
  eyes : Nat
  deriving Repr, DecidableEq

/-- A tracker issue as the engine reads it from the paginated listing:
`number`, `title`, `body`, `html_url` and reactions.  The listing is
already filtered by the `feature` label (the tracker client's contract). -/
structure Issue where
  number : Nat
  title : String
  body : String
  html_url : String
  reactions : Reactions
  deriving Repr, DecidableEq

/-- Lookup in a JS `Map` / object modelled as an association list (first
binding wins, as `Map.get` returns the unique binding and object keys are
unique). -/
def getVal {α : Type} : List (String × α) → String → Option α
  | [], _ => none
  | (k, v) :: t, key => if k = key then some v else getVal t key

/-- JS whitespace class `\s`, by code point: space, tab, line feed,
carriage return, vertical tab, form feed, no-break space, ogham space,
the U+2000 to U+200A range, line and paragraph separators, narrow
no-break space, medium mathematical space, ideographic space and the
byte-order mark. -/
def isWsChar (c : Char) : Bool :=
  let n := c.toNat
  n == 32 || n == 9 || n == 10 || n == 13 || n == 11 || n == 12 ||
  n == 0xa0 || n == 0x1680 || (0x2000 ≤ n && n ≤ 0x200a) || n == 0x2028 ||
  n == 0x2029 || n == 0x202f || n == 0x205f || n == 0x3000 || n == 0xfeff

/-- The character class `[a-z0-9-]` of the marker pattern's capture group,
by code point: lowercase letters 97 to 122, digits 48 to 57, hyphen 45. -/
def isIdChar (c : Char) : Bool :=
  let n := c.toNat
  (97 ≤ n && n ≤ 122) || (48 ≤ n && n ≤ 57) || n == 45

/-- Maximal munch of `\s*` (deterministic here: every continuation of the
pattern after a `\s*` starts with a non-whitespace character). -/
def dropWs : List Char → List Char
  | [] => []
  | c :: t => if isWsChar c then dropWs t else c :: t

/-- Match a literal piece of the pattern, returning the rest of the input. -/
def stripTok : List Char → List Char → Option (List Char)
  | [], s => some s
  | _ :: _, [] => none
  | p :: ps, c :: cs => if p = c then stripTok ps cs else none

/-- After the capture group, the pattern ends with `\s*-->`. -/
def tailOk (l : List Char) : Bool :=
  (stripTok ('-' :: '-' :: '>' :: []) (dropWs l)).isSome

/-- Greedy matching with backtracking for the capture group `([a-z0-9-]+)`:
the candidate captures are tried from longest to shortest; `revCap` is the
reversed current candidate, `tail` the run characters already given back.
`rest` is the input after the maximal `[a-z0-9-]` run. -/
def greedyGo (rest : List Char) : List Char → List Char → Option (List Char)
  | [], _ => none
  | c :: revPre, tail =>
    if tailOk (tail ++ rest) then some (c :: revPre).reverse
    else greedyGo rest revPre (c :: tail)

/-- Attempt to match `/<!--\s*web-features\s*:\s*([a-z0-9-]+)\s*-->/` at the
start of the input, returning the capture group. -/
def matchCore (s : List Char) : Option (List Char) :=
  match stripTok ('<' :: '!' :: '-' :: '-' :: []) s with
  | none => none
  | some s1 =>
    match stripTok "web-features".data (dropWs s1) with
    | none => none
    | some s2 =>
      match stripTok (':' :: []) (dropWs s2) with
      | none => none
      | some s3 =>
        let s4 := dropWs s3
        greedyGo (s4.dropWhile isIdChar) (s4.takeWhile isIdChar).reverse []

/-- `RegExp.prototype.exec`: the leftmost position where the pattern
matches, returning the capture group. -/
def execList : List Char → Option (List Char)
  | [] => none
  | c :: t =>
    match matchCore (c :: t) with
    | some cap => some cap
    | none => execList t

/-- `pattern.exec(body)` followed by taking the capture group `m[1]`. -/
def extractId (body : String) : Option String :=
  (execList body.data).map fun cs => String.mk cs

/-! ### Issue body generation (`issueBody`) -/

/-- U+2264, the character the engine strips from version strings such as
`"≤37"`. -/
def leqChar : Char := Char.ofNat 0x2264

/-- `String.prototype.replace` with a string pattern replaces the first
occurrence only; the pattern here is the single character U+2264. -/
def removeFirstLeq : List Char → List Char
  | [] => []
  | c :: t => if c = leqChar then t else c :: removeFirstLeq t

/-- `version.replace("≤", "")`. -/
def stripLeq (v : String) : String := String.mk (removeFirstLeq v.data)

def imgDir : String :=
  "https://raw.githubusercontent.com/web-platform-dx/developer-signals/refs/heads/main/img"

/-- One `<img ...><img ...>` pair of the support summary line. -/
def iconFor (p : String × Bool) : String :=
  let availability := if p.2 then "available" else "unavailable"
  "<img src=\"" ++ imgDir ++ "/" ++ p.1 ++ ".svg\" alt=\"" ++ p.1 ++
    "\"><img src=\"" ++ imgDir ++ "/" ++ availability ++ ".svg\" alt=\"" ++
    availability ++ "\">"

set_option linter.unusedVariables false in
/-- The per-browser loop of `issueBody` (the `for` over
`Object.entries(browsers)`).  Its first summary statement,
`supportSummary[vendor] ??= true`, reads the identifier `vendor`, which is
declared nowhere in scope (the binding created on the preceding line is
`baseBrowser`), so the first iteration throws a `ReferenceError` before
the version lookup, the unguarded `releases.find(...)!.date` dereference
or the date formatting can contribute anything.  The loop therefore
completes only when the browser table is empty, leaving the support
summary and the support lines empty. -/
def supportRows (support : List (String × String)) :
    List (String × BrowserData) → Option (List (String × Bool) × List String)
  | [] => some ([], [])
  | _ :: _ => none

/-- `Array.prototype.join(sep)`. -/
def joinSep (sep : String) : List String → String
  | [] => ""
  | [x] => x
  | x :: y :: t => x ++ sep ++ joinSep sep (y :: t)

/-- The `<details>` block of the body: summary icons, then the support
lines as list items. -/
def supportBlockOf (summary : List (String × Bool)) (lines : List String) : String :=
  "<details>\n<summary>" ++ joinSep " " (summary.map iconFor) ++
    "</summary>\n\n" ++
    joinSep "\n" (lines.map (fun l => "- " ++ l)) ++
    "\n</details>"

/-- The fixed text between the feature name and the description. -/
def segAfterName : String := "._\n\n"

/-- The fixed text between the description and the support block. -/
def segBeforeSupport : String := "\n\n## Browser support\n\n"

/-- The fixed middle of the body: feedback instructions, the comment
template (inside a Markdown code fence), code-of-conduct link and the
start of the link list.  Ends just before the conditional caniuse line. -/
def segMiddle : String :=
  "\n\n## Give us feedback\n\n" ++
  "If you're pressed for time, but you want this feature to be available in all browsers, please give this issue a thumbs up 👍 reaction.\n\n" ++
  "However, a much better guide for us is to know how you'd use this feature, and what you're having to do in the meantime. This helps us judge the priority versus other features.\n\n" ++
  "Copy the template below in a comment, and add the details that matter to _you_.\n\n" ++
  "```md\n## What I want to do with this feature\n\n" ++
  "<!-- Add your specific use-cases, even if they seem obvious to you. -->\n\n" ++
  "## What I'm having to do in the meantime\n\n" ++
  "<!--\nAre you having to use another feature instead, a polyfill, or is it blocking you completely?\nWhy are the alternatives worse than using this feature?\n-->\n```\n\n" ++
  "All comments are expected to adhere to the [Code of Conduct](https://github.com/web-platform-dx/developer-signals/blob/main/CODE_OF_CONDUCT.md).\n\n" ++
  "## Learn more\n\nYou can learn more about this feature here:\n\n"

/-- `${data.caniuse ? `- [caniuse.com](...)` : ""}`. -/
def caniuseLine : Option String → String
  | some s => if s = "" then "" else "- [caniuse.com](https://caniuse.com/" ++ s ++ ")"
  | none => ""

def segExplorer : String :=
  "\n- [web features explorer](https://web-platform-dx.github.io/web-features-explorer/features/"

def segWebstatus : String := ")\n- [webstatus.dev](https://webstatus.dev/features/"

def segSpecLink : String := ")\n- [Specification]("

def segMarkerOpen : String := ")\n\n<!-- web-features:"

/-- `issueBody(id, data)`: the full generated issue body (after `dedent`),
or `none` when the body generation throws.  With a nonempty browser table
the per-browser loop throws `ReferenceError` at the undeclared `vendor` on
its first iteration, so a body is only ever produced for an empty table,
with an empty support block. -/
def issueBody (browsers : List (String × BrowserData)) (id : String)
    (data : FeatureData) : Option String :=
  match supportRows data.status.support browsers with
  | none => none
  | some (summary, lines) =>
    some ("_This GitHub issue is for collecting web developer signals for " ++
      data.name ++ segAfterName ++ data.description_html ++ segBeforeSupport ++
      supportBlockOf summary lines ++ segMiddle ++
      caniuseLine data.caniuse ++ segExplorer ++ id ++ segWebstatus ++ id ++
      segSpecLink ++ data.spec ++ segMarkerOpen ++ id ++ " -->")

/-! ### Issue index (`openIssues`) -/

/-- The identity a tracker issue resolves to: the marker's capture group,
rewritten to `redirect_target` when the named feature's kind is `moved`
(`features[id]?.kind === "moved"`). -/
def resolveId (features : List (String × FeatureData)) (body : String) :
    Option String :=
  (extractId body).map fun id =>
    match getVal features id with
    | some data =>
      match data.kind with
      | .moved target => target
      | _ => id
    | none => id

/-- The loop that builds the `openIssues` map: issues without a marker are
ignored, a second issue resolving to an already-indexed identity is fatal
(`Multiple issues for ...`), naming the first issue's URL and the current
one's. -/
def buildOpenIssues (features : List (String × FeatureData)) :
    List Issue → List (String × Issue) → Except String (List (String × Issue))
  | [], acc => .ok acc
  | issue :: rest, acc =>
    match resolveId features issue.body with
    | none => buildOpenIssues features rest acc
    | some id =>
      match getVal acc id with
      | some prev =>
        .error ("Multiple issues for " ++ id ++ ": " ++ prev.html_url ++
          " and " ++ issue.html_url)
      | none => buildOpenIssues features rest (acc ++ [(id, issue)])

/-! ### Ranking (`sortKeys` / `sortedIds`) -/

/-- The date-like sentinel that sorts after any real date. -/
def sentinel : String := "9999-99-99"

/-- The release dates contributed by a feature's support table: for each
`(browser, version)` entry, the matching release's date; versions with no
matching release are discarded.  The lookup `browsers[browser].releases`
is unguarded in the source, so an unknown browser key is a runtime
`TypeError`. -/
def featureDates (browsers : List (String × BrowserData)) :
    List (String × String) → List String → Except String (List String)
  | [], acc => .ok acc
  | (browser, version) :: rest, acc =>
    let v := stripLeq version
    match getVal browsers browser with
    | none => .error ("TypeError: browsers[" ++ browser ++ "] is undefined")
    | some bd =>
      match bd.releases.find? (fun r => r.version == v) with
      | some rel => featureDates browsers rest (acc ++ [rel.date])
      | none => featureDates browsers rest acc

/-- Lexicographic comparison of the underlying character sequences, the
order `Array.prototype.sort()`'s default comparator applies to strings
(JS compares UTF-16 code units; for the scalar values appearing here the
orders agree). -/
def charLe : List Char → List Char → Bool
  | [], _ => true
  | _ :: _, [] => false
  | a :: as, b :: bs => if a < b then true else if b < a then false else charLe as bs

/-- The comparator of the default string sort. -/
def strLe (a b : String) : Bool := charLe a.data b.data

/-- Stable insertion into a sorted list of strings. -/
def insertStr (x : String) : List String → List String
  | [] => [x]
  | y :: t => if strLe x y then x :: y :: t else y :: insertStr x t

/-- `Array.prototype.sort()` with the default comparator on strings:
the sorted permutation (insertion sort). -/
def sortStrings : List String → List String
  | [] => []
  | x :: t => insertStr x (sortStrings t)

/-- One feature's ranking key: its dates plus the sentinel, sorted and
joined with `"+"`. -/
def sortKeyOf (browsers : List (String × BrowserData)) (data : FeatureData) :
    Except String String :=
  (featureDates browsers data.status.support []).map fun dates =>
    joinSep "+" (sortStrings (dates ++ [sentinel]))

/-- The `sortKeys` map: one key per `feature`-kind record; `moved` and
`split` records are passed over; any other kind throws
`Unknown feature kind: ...` and aborts the run. -/
def computeSortKeys (features : List (String × FeatureData))
    (browsers : List (String × BrowserData)) :
    List (String × FeatureData) → List (String × String) →
    Except String (List (String × String))
  | [], acc => .ok acc
  | (id, data) :: rest, acc =>
    match data.kind with
    | .feature =>
      match sortKeyOf browsers data with
      | .error e => .error e
      | .ok k => computeSortKeys features browsers rest (acc ++ [(id, k)])
    | .moved _ => computeSortKeys features browsers rest acc
    | .split => computeSortKeys features browsers rest acc
    | .other s => .error ("Unknown feature kind: " ++ s)

/-- `sortKeys.get(a)!` in the ranking comparator. -/
def keyFor (keys : List (String × String)) (id : String) : String :=
  (getVal keys id).getD ""

/-- Stable insertion for the ranked sort: an id is placed before the first
id with a strictly greater key under the collator. -/
def insertRanked (collate : String → String → Ordering)
    (keys : List (String × String)) (x : String) : List String → List String
  | [] => [x]
  | y :: t =>
    if collate (keyFor keys x) (keyFor keys y) = Ordering.lt then x :: y :: t
    else y :: insertRanked collate keys x t

/-- `Array.from(sortKeys.keys()).sort((a, b) => localeCompare of keys)`:
a stable sort of the ids by their keys under the environment's collator. -/
def rankSort (collate : String → String → Ordering)
    (keys : List (String × String)) : List String → List String
  | [] => []
  | x :: t => insertRanked collate keys x (rankSort collate keys t)

/-! ### Reconciliation -/

/-- A tracker mutation intent: `octokit.rest.issues.create` or
`octokit.rest.issues.update` (title and body only; labels are never
touched on update). -/
inductive Mutation where
  | create (title body : String)
  | update (number : Nat) (title body : String)
  deriving Repr, DecidableEq

/-- One manifest value: the issue's canonical URL and its vote count. -/
structure ManifestEntry where
  url : String
  votes : Nat
  deriving Repr, DecidableEq

/-- What one iteration of the reconciliation loop produces: at most one
mutation intent and at most one manifest entry. -/
structure StepRes where
  mutation : Option Mutation
  entry : Option ManifestEntry
  deriving Repr, DecidableEq

/-- The body of the `for (const id of sortedIds)` loop, for one id.
`freshUrl` is the URL the tracker assigns if this step creates an issue.
The error case is `issueBody` throwing (the per-browser loop reads the
undeclared `vendor`); the body is computed before the baseline check and
before the create/update decision, so the throw precedes both. -/
def reconcileStep (features : List (String × FeatureData))
    (browsers : List (String × BrowserData))
    (skipFeatures : List (String × String))
    (openIssues : List (String × Issue)) (dryRun : Bool) (id : String)
    (freshUrl : String) : Except String StepRes :=
  match getVal features id with
  | none => .ok ⟨none, none⟩
  | some data =>
    match getVal skipFeatures id with
    | some _ => .ok ⟨none, none⟩
    | none =>
      if data.discouraged.isSome then .ok ⟨none, none⟩
      else
        let title := data.name
        match issueBody browsers id data with
        | none => .error "ReferenceError: vendor is not defined"
        | some body =>
          match getVal openIssues id with
          | some issue =>
            if issue.title ≠ title ∨ issue.body ≠ body then
              if dryRun then .ok ⟨none, none⟩
              else .ok ⟨some (.update issue.number title body),
                some ⟨issue.html_url, issue.reactions.plus1⟩⟩
            else .ok ⟨none, some ⟨issue.html_url, issue.reactions.plus1⟩⟩
          | none =>
            if data.status.baseline.isSome then .ok ⟨none, none⟩
            else if dryRun then .ok ⟨none, none⟩
            else .ok ⟨some (.create title body), some ⟨freshUrl, 0⟩⟩

/-- The engine's inputs: the feature catalog, the browser release tables,
the skip list derived from the standards-position feed, the tracker's
issue listing (already filtered by the `feature` label), the URLs the
tracker assigns to successive created issues, and the platform collator
backing `localeCompare`. -/
structure Env where
  features : List (String × FeatureData)
  browsers : List (String × BrowserData)
  skipFeatures : List (String × String)
  issues : List Issue
  createUrls : Nat → String
  collate : String → String → Ordering

/-- The observable outcome of a run: the mutation intents issued (in
order), the manifest accumulated, whether the manifest file was written,
and the uncaught error if the run aborted. -/
structure RunOutcome where
  mutations : List Mutation
  manifest : List (String × ManifestEntry)
  written : Bool
  error : Option String
  deriving Repr, DecidableEq

/-- The reconciliation loop over the ranked ids, threading the count of
issues created so far (which picks the next tracker-assigned URL).  An
error aborts the loop; the mutations already issued stay issued. -/
def reconcileLoop (env : Env) (openIssues : List (String × Issue))
    (dryRun : Bool) :
    List String → Nat → List Mutation → List (String × ManifestEntry) →
    List Mutation × List (String × ManifestEntry) × Option String
  | [], _, muts, mani => (muts, mani, none)
  | id :: rest, n, muts, mani =>
    match reconcileStep env.features env.browsers env.skipFeatures openIssues
        dryRun id (env.createUrls n) with
    | .error e => (muts, mani, some e)
    | .ok r =>
      let n' := match r.mutation with
        | some (.create _ _) => n + 1
        | _ => n
      reconcileLoop env openIssues dryRun rest n'
        (muts ++ r.mutation.toList)
        (mani ++ (match r.entry with
          | some e => [(id, e)]
          | none => []))

/-- Stable insertion into a key-sorted association list. -/
def insertByKey (x : String × ManifestEntry) :
    List (String × ManifestEntry) → List (String × ManifestEntry)
  | [] => [x]
  | y :: t => if strLe x.1 y.1 then x :: y :: t else y :: insertByKey x t

/-- The manifest serialization: `Array.from(manifest.keys()).sort()` and
re-reading each entry, i.e. the manifest sorted by identity. -/
def sortManifest : List (String × ManifestEntry) → List (String × ManifestEntry)
  | [] => []
  | x :: t => insertByKey x (sortManifest t)

/-- The whole engine (`update()`), as a function of the environment and
the `--dry-run` flag: build the issue index, compute the ranking, run the
reconciliation loop, then unconditionally serialize and write the sorted
manifest.  A fatal error at any stage surfaces uncaught and nothing after
it runs (in particular the manifest file is not written). -/
def update (env : Env) (dryRun : Bool) : RunOutcome :=
  match buildOpenIssues env.features env.issues [] with
  | .error e => ⟨[], [], false, some e⟩
  | .ok openIssues =>
    match computeSortKeys env.features env.browsers env.features [] with
    | .error e => ⟨[], [], false, some e⟩
    | .ok sortKeys =>
      let sortedIds := rankSort env.collate sortKeys (sortKeys.map Prod.fst)
      match reconcileLoop env openIssues dryRun sortedIds 0 [] [] with
      | (muts, mani, some e) => ⟨muts, mani, false, some e⟩
      | (muts, mani, none) => ⟨muts, sortManifest mani, true, none⟩

/-! ### General helper lemmas -/

/-! ### Auxiliary predicates and concrete fixtures

The predicates back the marker round-trip development; the fixtures are
the concrete catalogs, issues and environments the witnesses and
counterexamples below evaluate.  `bodyW` is the body the engine itself
generates for `featW`. -/

/-- A one-browser release table (exercised by the ranking, which is the
only pass that survives a nonempty table). -/
def browsersW : List (String × BrowserData) :=
  [("chrome", ⟨"Chrome", [⟨"110", "2023-02-07"⟩]⟩)]

/-- An eligible feature with an empty support table, so that the ranking
touches no browser data and body generation (which dies at the undeclared
`vendor` for any nonempty browser table) is run against the empty table. -/
def featW : FeatureData :=
  { kind := .feature, name := "Grid", description_html := "A layout system.",
    caniuse := none, spec := "https://example.test/spec",
    discouraged := none,
    status := { baseline := none, baseline_low_date := none,
                support := [] } }

/-- The generated issue body for `featW` under identity `grid`, built
against the empty browser table (the only one `issueBody` survives). -/
def bodyW : String := (issueBody [] "grid" featW).getD ""

/-- An existing tracker issue for `featW` whose content is up to date. -/
def issueW : Issue :=
  ⟨7, "Grid", bodyW, "https://github.test/issues/7", ⟨3, 0, 0, 0, 0, 0, 0, 0⟩⟩

/-- A run environment with one feature and one up-to-date issue; its
browser table is empty so that body generation completes. -/
def envW : Env :=
  { features := [("grid", featW)], browsers := [], skipFeatures := [],
    issues := [issueW], createUrls := fun n => "https://github.test/new/" ++ toString n,
    collate := compare }

/-- The environment `envW` with an empty tracker. -/
def envFresh : Env := { envW with issues := [] }

/-- A feature record of unknown kind `"custom"`. -/
def featU : FeatureData := { featW with kind := .other "custom" }

/-- A catalog with a record of unknown kind. -/
def envU : Env :=
  { envW with features := [("z", featU)], issues := [] }

/-- Two synthetic issues carrying the same marker identity. -/
def issueD1 : Issue :=
  ⟨1, "t", "<!-- web-features:grid -->", "https://github.test/issues/1",
    ⟨0, 0, 0, 0, 0, 0, 0, 0⟩⟩

def issueD2 : Issue :=
  ⟨2, "t", "x <!-- web-features:grid --> y", "https://github.test/issues/2",
    ⟨0, 0, 0, 0, 0, 0, 0, 0⟩⟩

def envD : Env := { envW with issues := [issueD1, issueD2] }

/-- A record that has been moved to identity `grid`. -/
def featMoved : FeatureData := { featW with kind := .moved "grid" }

/-- A synthetic issue created under the old identity. -/
def issueM : Issue :=
  ⟨3, "Grid", "<!-- web-features:old-grid -->", "https://github.test/issues/3",
    ⟨4, 0, 0, 0, 0, 0, 0, 0⟩⟩

/-- The catalog holding the moved record and its target. -/
def featuresM : List (String × FeatureData) :=
  [("old-grid", featMoved), ("grid", featW)]

/-- A feature that reached Baseline low (newly available, not yet widely
available). -/
def featLow : FeatureData :=
  { featW with status := { featW.status with baseline := some .low } }

/-- A support status naming a version Chrome never shipped. -/
def statusX : FeatureStatus :=
  { baseline := none, baseline_low_date := none,
    support := [("chrome", "999")] }

/-- A feature whose support table names a version Chrome never shipped. -/
def featX : FeatureData := { featW with status := statusX }

/-- A two-browser release table: engine A shipped on 2020-01-01 and
engine B on 2019-06-01. -/
def browsersR : List (String × BrowserData) :=
  [("chrome", ⟨"Chrome", [⟨"1", "2020-01-01"⟩]⟩),
   ("firefox", ⟨"Firefox", [⟨"1", "2019-06-01"⟩]⟩)]

/-- A feature supported by both engines of `browsersR`. -/
def featR : FeatureData :=
  { kind := .feature, name := "R", description_html := "d", caniuse := none,
    spec := "s", discouraged := none,
    status := { baseline := none, baseline_low_date := none,
                support := [("chrome", "1"), ("firefox", "1")] } }

/-- A widely-available status for the second witness feature (empty
support table, like `featW`'s). -/
def statusHigh : FeatureStatus :=
  { baseline := some .high, baseline_low_date := some "2020-01-01",
    support := [] }

/-- A feature that reached full Baseline availability. -/
def featHigh : FeatureData := { featW with name := "Done", status := statusHigh }

/-- A synthetic issue for the skip-listed feature of the C7 witness. -/
def issueS : Issue :=
  ⟨9, "Grid", "<!-- web-features:grid -->", "https://github.test/issues/9",
    ⟨1, 0, 0, 0, 0, 0, 0, 0⟩⟩

/-- A post-run environment: one skip-listed feature with an issue, one
widely-available feature with none.  The browser table is empty so both
features' bodies are computable. -/
def env7 : Env :=
  { features := [("grid", featW), ("done-feature", featHigh)],
    browsers := [],
    skipFeatures := [("grid", "mozilla position is negative: u")],
    issues := [issueS],
    createUrls := fun n => "https://github.test/new/" ++ toString n,
    collate := compare }

/-- No `<` character occurs in the character list. -/
abbrev NoLt (l : List Char) : Prop := ∀ c ∈ l, c ≠ '<'

/-- A segment of the body at which the scan can never start a match,
whatever follows it. -/
def CleanSeg (l : List Char) : Prop := ∀ m, execList (l ++ m) = execList m

/-- Head check of the conservative scan: what must follow a `<` inside a
fixed segment so that no marker-pattern match can start at it, whatever
text follows the segment. -/
def ltHeadOk : List Char → Bool
  | '!' :: '-' :: '-' :: r =>
    (match dropWs r with
     | [] => false
     | d :: _ => d != 'w')
  | '!' :: '-' :: [] => false
  | '!' :: '-' :: _ :: _ => true
  | '!' :: [] => false
  | '!' :: _ :: _ => true
  | [] => false
  | _ :: _ => true

/-- A conservative scan validating a fixed body segment: every `<` inside
it is enough, within the segment, to make the marker pattern fail at that
position, whatever text follows the segment. -/
def scanSafe : List Char → Bool
  | [] => true
  | c :: t => (if c = '<' then ltHeadOk t else true) && scanSafe t

/-- String-level no-`<` predicate. -/
abbrev NoLtS (s : String) : Prop := NoLt s.data

/-- A feature record whose description carries a marker-shaped comment. -/
def featE : FeatureData :=
  { featW with name := "x", description_html := "<!-- web-features:evil -->" }

theorem getVal_mem {α : Type} {l : List (String × α)} {k : String} {v : α}
    (h : getVal l k = some v) : (k, v) ∈ l := by
  induction l with
  | nil => simp [getVal] at h
  | cons p t ih =>
    obtain ⟨k', v'⟩ := p
    simp only [getVal] at h
    by_cases hk : k' = k
    · simp [hk] at h
      subst hk h
      exact List.mem_cons_self _ _
    · simp [hk] at h
      exact List.mem_cons_of_mem _ (ih h)

theorem getVal_isSome_of_mem {α : Type} {l : List (String × α)} {k : String}
    {v : α} (h : (k, v) ∈ l) : (getVal l k).isSome := by
  induction l with
  | nil => simp at h
  | cons p t ih =>
    obtain ⟨k', v'⟩ := p
    rcases List.mem_cons.mp h with h1 | h2
    · injection h1 with h1a h1b
      subst h1a
      simp [getVal]
    · simp only [getVal]
      by_cases hk : k' = k
      · simp [hk]
      · simp [hk]
        exact ih h2

theorem getVal_append_left {α : Type} {l : List (String × α)} {k : String}
    {v : α} (m : List (String × α)) (h : getVal l k = some v) :
    getVal (l ++ m) k = some v := by
  induction l with
  | nil => simp [getVal] at h
  | cons p t ih =>
    obtain ⟨k', v'⟩ := p
    simp only [getVal] at h ⊢
    by_cases hk : k' = k
    · simpa [hk] using h
    · simp only [hk, if_false] at h ⊢
      exact ih h

theorem getVal_append_right {α : Type} {l : List (String × α)} {k : String}
    (m : List (String × α)) (h : getVal l k = none) :
    getVal (l ++ m) k = getVal m k := by
  induction l with
  | nil => simp [getVal]
  | cons p t ih =>
    obtain ⟨k', v'⟩ := p
    simp only [getVal] at h ⊢
    by_cases hk : k' = k
    · simp [hk] at h
    · simp only [hk, if_false] at h ⊢
      exact ih h

/-! ### Equations of the reconciliation step -/

section StepEquations

variable {f : List (String × FeatureData)} {b : List (String × BrowserData)}
variable {s : List (String × String)} {o : List (String × Issue)}
variable {d : Bool} {id u : String} {data : FeatureData}

/-- Step equation: the id is not in the catalog. -/
theorem reconcileStep_notFound (hf : getVal f id = none) :
    reconcileStep f b s o d id u = .ok ⟨none, none⟩ := by
  unfold reconcileStep
  rw [hf]

/-- Step equation: the id is skip-listed. -/
theorem reconcileStep_skip {reason : String} (hf : getVal f id = some data)
    (hs : getVal s id = some reason) :
    reconcileStep f b s o d id u = .ok ⟨none, none⟩ := by
  unfold reconcileStep
  rw [hf, hs]

/-- Step equation: the feature is discouraged. -/
theorem reconcileStep_discouraged (hf : getVal f id = some data)
    (hs : getVal s id = none) (hd : data.discouraged.isSome) :
    reconcileStep f b s o d id u = .ok ⟨none, none⟩ := by
  unfold reconcileStep
  rw [hf, hs]
  simp [hd]

/-- Step equation: body generation throws (the run aborts here). -/
theorem reconcileStep_bodyFail (hf : getVal f id = some data)
    (hs : getVal s id = none) (hd : data.discouraged = none)
    (hb : issueBody b id data = none) :
    reconcileStep f b s o d id u =
      .error "ReferenceError: vendor is not defined" := by
  unfold reconcileStep
  rw [hf, hs]
  simp [hd, hb]

/-- Step equation: an issue exists and its content is stale. -/
theorem reconcileStep_stale {body : String} {issue : Issue}
    (hf : getVal f id = some data) (hs : getVal s id = none)
    (hd : data.discouraged = none) (hb : issueBody b id data = some body)
    (hi : getVal o id = some issue)
    (hst : issue.title ≠ data.name ∨ issue.body ≠ body) :
    reconcileStep f b s o d id u =
      if d then .ok ⟨none, none⟩
      else .ok ⟨some (.update issue.number data.name body),
        some ⟨issue.html_url, issue.reactions.plus1⟩⟩ := by
  unfold reconcileStep
  rw [hf, hs]
  simp [hd, hb, hi, hst]

/-- Step equation: an issue exists and is already up to date. -/
theorem reconcileStep_upToDate {body : String} {issue : Issue}
    (hf : getVal f id = some data) (hs : getVal s id = none)
    (hd : data.discouraged = none) (hb : issueBody b id data = some body)
    (hi : getVal o id = some issue) (ht : issue.title = data.name)
    (hbo : issue.body = body) :
    reconcileStep f b s o d id u =
      .ok ⟨none, some ⟨issue.html_url, issue.reactions.plus1⟩⟩ := by
  unfold reconcileStep
  rw [hf, hs]
  simp [hd, hb, hi, ht, hbo]

/-- Step equation: no issue exists and the baseline status is set. -/
theorem reconcileStep_baselineSkip (hf : getVal f id = some data)
    (hs : getVal s id = none) (hd : data.discouraged = none)
    {body : String} (hb : issueBody b id data = some body)
    (hi : getVal o id = none) (hbase : data.status.baseline.isSome) :
    reconcileStep f b s o d id u = .ok ⟨none, none⟩ := by
  unfold reconcileStep
  rw [hf, hs]
  simp [hd, hb, hi, hbase]

/-- Step equation: no issue exists and the baseline status is absent. -/
theorem reconcileStep_fresh (hf : getVal f id = some data)
    (hs : getVal s id = none) (hd : data.discouraged = none)
    {body : String} (hb : issueBody b id data = some body)
    (hi : getVal o id = none) (hbase : data.status.baseline = none) :
    reconcileStep f b s o d id u =
      if d then .ok ⟨none, none⟩
      else .ok ⟨some (.create data.name body), some ⟨u, 0⟩⟩ := by
  unfold reconcileStep
  rw [hf, hs]
  simp [hd, hb, hi, hbase]

/-- In dry-run mode no step produces a mutation intent. -/
theorem step_dry_mutation_none {r : StepRes}
    (h : reconcileStep f b s o true id u = .ok r) : r.mutation = none := by
  cases hf : getVal f id with
  | none =>
    rw [reconcileStep_notFound hf] at h
    cases h
    rfl
  | some data =>
    cases hs : getVal s id with
    | some reason =>
      rw [reconcileStep_skip hf hs] at h
      cases h
      rfl
    | none =>
      cases hd : data.discouraged with
      | some dd =>
        rw [reconcileStep_discouraged hf hs (by simp [hd])] at h
        cases h
        rfl
      | none =>
        cases hb : issueBody b id data with
        | none =>
          rw [reconcileStep_bodyFail hf hs hd hb] at h
          exact Except.noConfusion h
        | some body =>
          cases hi : getVal o id with
          | some issue =>
            by_cases hst : issue.title = data.name ∧ issue.body = body
            · rw [reconcileStep_upToDate hf hs hd hb hi hst.1 hst.2] at h
              cases h
              rfl
            · rw [reconcileStep_stale hf hs hd hb hi (not_and_or.mp hst)] at h
              simp only [if_pos rfl, if_true] at h
              cases h
              rfl
          | none =>
            cases hbase : data.status.baseline with
            | some lvl =>
              rw [reconcileStep_baselineSkip hf hs hd hb hi (by simp [hbase])] at h
              cases h
              rfl
            | none =>
              rw [reconcileStep_fresh hf hs hd hb hi hbase] at h
              simp only [if_pos rfl, if_true] at h
              cases h
              rfl

end StepEquations

/-! ### C1: dry-run behaviour -/

/-- The dry-run loop adds no mutations to the accumulator. -/
theorem loop_dry_muts (env : Env) (o : List (String × Issue)) :
    ∀ (ids : List String) (n : Nat) (muts : List Mutation)
      (mani : List (String × ManifestEntry)),
      (reconcileLoop env o true ids n muts mani).1 = muts := by
  intro ids
  induction ids with
  | nil => intro n muts mani; simp [reconcileLoop]
  | cons id rest ih =>
    intro n muts mani
    simp only [reconcileLoop]
    cases h : reconcileStep env.features env.browsers env.skipFeatures o true id
        (env.createUrls n) with
    | error e => rfl
    | ok r =>
      have hm := step_dry_mutation_none h
      simp only [hm, Option.toList_none, List.append_nil]
      exact ih _ _ _

/-- Claim C1 (amended): a dry-run pass performs no create or update
mutation; but the manifest write is unconditional, so a dry-run pass that
finishes without a fatal error still writes the manifest file. -/
theorem c1_dry_run_no_mutations (env : Env) :
    (update env true).mutations = [] ∧
      ((update env true).error = none → (update env true).written = true) := by
  unfold update
  cases h1 : buildOpenIssues env.features env.issues [] with
  | error e => exact ⟨rfl, by intro h; cases h⟩
  | ok openIssues =>
    cases h2 : computeSortKeys env.features env.browsers env.features [] with
    | error e => exact ⟨rfl, by intro h; cases h⟩
    | ok sortKeys =>
      have hm := loop_dry_muts env openIssues
        (rankSort env.collate sortKeys (sortKeys.map Prod.fst)) 0 [] []
      rcases hl : reconcileLoop env openIssues true
          (rankSort env.collate sortKeys (sortKeys.map Prod.fst)) 0 [] [] with
        ⟨muts, mani, err⟩
      rw [hl] at hm
      dsimp only at hm ⊢
      rw [hl]
      cases err with
      | none => exact ⟨hm, fun _ => rfl⟩
      | some e => exact ⟨hm, by intro h; cases h⟩

set_option maxRecDepth 4096 in
/-- Claim C1 counterexample: a dry-run pass over one eligible feature
(classified as a would-be create and therefore skipped) performs no
mutation, yet finishes with the manifest file written (the claim says a
dry-run pass never writes the manifest). -/
theorem c1_counterexample : update envFresh true = ⟨[], [], true, none⟩ := by
  decide

/-! ### C2: unknown feature kind -/

/-- A catalog containing a record of unknown kind makes the ranking pass
throw. -/
theorem computeSortKeys_unknown {f : List (String × FeatureData)}
    {b : List (String × BrowserData)} {id : String} {data : FeatureData}
    {s : String} (hk : data.kind = .other s) :
    ∀ (l : List (String × FeatureData)) (acc : List (String × String)),
      (id, data) ∈ l → ∃ e, computeSortKeys f b l acc = .error e := by
  intro l
  induction l with
  | nil => intro acc h; simp at h
  | cons p t ih =>
    intro acc hmem
    obtain ⟨id', d'⟩ := p
    rcases List.mem_cons.mp hmem with h1 | h2
    · injection h1 with h1a h1b
      subst h1a h1b
      simp only [computeSortKeys, hk]
      exact ⟨_, rfl⟩
    · simp only [computeSortKeys]
      cases hkd : d'.kind with
      | feature =>
        cases hsk : sortKeyOf b d' with
        | error e => exact ⟨e, rfl⟩
        | ok k => exact ih _ h2
      | moved target => exact ih _ h2
      | split => exact ih _ h2
      | other s' => exact ⟨_, rfl⟩

/-- Claim C2 (amended): a feature record whose lifecycle kind is not
Normal/feature, Moved or Split is fatal: the ranking pass throws
`Unknown feature kind: ...`, the run aborts before any mutation, and the
manifest is not written. -/
theorem c2_unknown_kind_fatal (env : Env) (d : Bool) (id : String)
    (data : FeatureData) (s : String) (hmem : (id, data) ∈ env.features)
    (hk : data.kind = .other s) :
    (update env d).error.isSome ∧ (update env d).mutations = [] ∧
      (update env d).written = false := by
  unfold update
  cases h1 : buildOpenIssues env.features env.issues [] with
  | error e => exact ⟨rfl, rfl, rfl⟩
  | ok openIssues =>
    obtain ⟨e, he⟩ := computeSortKeys_unknown hk env.features [] hmem
    rw [he]
    exact ⟨rfl, rfl, rfl⟩

/-- Claim C2 counterexample: the run over a catalog holding a record of
unknown kind aborts with an uncaught error instead of skipping the record
and continuing. -/
theorem c2_counterexample :
    update envU false = ⟨[], [], false, some "Unknown feature kind: custom"⟩ := by
  decide

/-- Claim C2 witness data: the amended theorem applied to `envU`. -/
theorem c2_witness :
    (update envU false).error.isSome ∧ (update envU false).mutations = [] ∧
      (update envU false).written = false :=
  c2_unknown_kind_fatal envU false "z" featU "custom"
    (by simp [envU, envW, featU]) rfl


/-! ### C4: duplicate detection -/

/-- While the index build succeeds, an identity already indexed in the
accumulator never appears again among the remaining issues. -/
theorem build_ok_no_rehit {f : List (String × FeatureData)} :
    ∀ (l : List Issue) (acc m : List (String × Issue)),
      buildOpenIssues f l acc = .ok m →
      ∀ (id : String) (v : Issue), getVal acc id = some v →
        ∀ iss ∈ l, resolveId f iss.body ≠ some id := by
  intro l
  induction l with
  | nil => intro acc m _ id v _ iss hiss; simp at hiss
  | cons x rest ih =>
    intro acc m h id v hacc iss hiss hres
    simp only [buildOpenIssues] at h
    rcases List.mem_cons.mp hiss with h1 | h2
    · subst h1
      simp only [hres, hacc] at h
      exact Except.noConfusion h
    · cases hrx : resolveId f x.body with
      | none =>
        simp only [hrx] at h
        exact ih acc m h id v hacc iss h2 hres
      | some id0 =>
        simp only [hrx] at h
        cases hg : getVal acc id0 with
        | some prev =>
          simp only [hg] at h
          exact Except.noConfusion h
        | none =>
          simp only [hg] at h
          refine ih _ m h id v ?_ iss h2 hres
          exact getVal_append_left _ hacc

/-- If the index build succeeds, no two issues of the listing resolve to
the same identity. -/
theorem build_ok_no_pair {f : List (String × FeatureData)} :
    ∀ (l : List Issue) (acc m : List (String × Issue)),
      buildOpenIssues f l acc = .ok m →
      ∀ (i j : Nat) (a b : Issue) (id : String), i < j →
        l[i]? = some a → l[j]? = some b →
        resolveId f a.body = some id → resolveId f b.body = some id → False := by
  intro l
  induction l with
  | nil => intro acc m _ i j a b id _ ha _ _ _; simp at ha
  | cons x rest ih =>
    intro acc m h i j a b id hij ha hb hra hrb
    simp only [buildOpenIssues] at h
    cases j with
    | zero => omega
    | succ j' =>
      have hb' : rest[j']? = some b := by simpa using hb
      have hbmem : b ∈ rest := by
        have := List.getElem?_eq_some.mp hb'
        obtain ⟨hlt, hEq⟩ := this
        exact hEq ▸ List.getElem_mem hlt
      cases i with
      | zero =>
        have hax : x = a := by simpa using ha
        subst hax
        simp only [hra] at h
        cases hg : getVal acc id with
        | some prev =>
          simp only [hg] at h
          exact Except.noConfusion h
        | none =>
          simp only [hg] at h
          have hacc2 : getVal (acc ++ [(id, x)]) id = some x := by
            rw [getVal_append_right _ hg]
            simp [getVal]
          exact build_ok_no_rehit rest _ m h id x hacc2 b hbmem hrb
      | succ i' =>
        have ha' : rest[i']? = some a := by simpa using ha
        cases hrx : resolveId f x.body with
        | none =>
          simp only [hrx] at h
          exact ih acc m h i' j' a b id (by omega) ha' hb' hra hrb
        | some id0 =>
          simp only [hrx] at h
          cases hg : getVal acc id0 with
          | some prev =>
            simp only [hg] at h
            exact Except.noConfusion h
          | none =>
            simp only [hg] at h
            exact ih _ m h i' j' a b id (by omega) ha' hb' hra hrb

/-- When the index build fails, the error is `Multiple issues for ...`
naming the URLs of two issues of the listing that resolve to the same
identity. -/
theorem build_error_spec {f : List (String × FeatureData)} {S : List Issue} :
    ∀ (l : List Issue) (acc : List (String × Issue)) (msg : String),
      (∀ p ∈ acc, (p : String × Issue).2 ∈ S ∧
        resolveId f p.2.body = some p.1) →
      (∀ i ∈ l, i ∈ S) →
      buildOpenIssues f l acc = .error msg →
      ∃ (id : String) (prev cur : Issue), prev ∈ S ∧ cur ∈ S ∧
        resolveId f prev.body = some id ∧ resolveId f cur.body = some id ∧
        msg = "Multiple issues for " ++ id ++ ": " ++ prev.html_url ++
          " and " ++ cur.html_url := by
  intro l
  induction l with
  | nil =>
    intro acc msg _ _ h
    simp only [buildOpenIssues] at h
    exact Except.noConfusion h
  | cons x rest ih =>
    intro acc msg hacc hsub h
    simp only [buildOpenIssues] at h
    have hxS : x ∈ S := hsub x (List.mem_cons_self _ _)
    have hrestS : ∀ i ∈ rest, i ∈ S := fun i hi =>
      hsub i (List.mem_cons_of_mem _ hi)
    cases hrx : resolveId f x.body with
    | none =>
      simp only [hrx] at h
      exact ih acc msg hacc hrestS h
    | some id0 =>
      simp only [hrx] at h
      cases hg : getVal acc id0 with
      | some prev =>
        simp only [hg] at h
        have hp := hacc (id0, prev) (getVal_mem hg)
        have hmsg := (Except.error.inj h.symm)
        exact ⟨id0, prev, x, hp.1, hxS, hp.2, hrx, hmsg⟩
      | none =>
        simp only [hg] at h
        refine ih _ msg ?_ hrestS h
        intro p hp
        rcases List.mem_append.mp hp with h1 | h2
        · exact hacc p h1
        · simp at h2
          subst h2
          exact ⟨hxS, hrx⟩

/-- Claim C4: two tracker issues resolving (after Moved rewriting) to the
same final identity abort the whole run while the index is being built:
the uncaught error names both issues URLs, no mutation is performed and
the manifest is not written. -/
theorem c4_duplicate_fatal (env : Env) (d : Bool) (i j : Nat) (a b : Issue)
    (id : String) (hij : i < j) (ha : env.issues[i]? = some a)
    (hb : env.issues[j]? = some b)
    (hra : resolveId env.features a.body = some id)
    (hrb : resolveId env.features b.body = some id) :
    ∃ (msg id' : String) (prev cur : Issue),
      update env d = ⟨[], [], false, some msg⟩ ∧
      prev ∈ env.issues ∧ cur ∈ env.issues ∧
      resolveId env.features prev.body = some id' ∧
      resolveId env.features cur.body = some id' ∧
      msg = "Multiple issues for " ++ id' ++ ": " ++ prev.html_url ++
        " and " ++ cur.html_url := by
  cases hB : buildOpenIssues env.features env.issues [] with
  | ok m =>
    exact absurd hB fun hB =>
      build_ok_no_pair env.issues [] m hB i j a b id hij ha hb hra hrb
  | error msg =>
    obtain ⟨id', prev, cur, h1, h2, h3, h4, h5⟩ :=
      build_error_spec (S := env.issues) env.issues [] msg
        (by intro p hp; simp at hp) (fun _ hi => hi) hB
    refine ⟨msg, id', prev, cur, ?_, h1, h2, h3, h4, h5⟩
    unfold update
    rw [hB]

/-- Claim C4 witness: the duplicate-detection theorem applied to two
synthetic issues with the same marker. -/
theorem c4_witness :
    ∃ (msg id' : String) (prev cur : Issue),
      update envD false = ⟨[], [], false, some msg⟩ ∧
      prev ∈ envD.issues ∧ cur ∈ envD.issues ∧
      resolveId envD.features prev.body = some id' ∧
      resolveId envD.features cur.body = some id' ∧
      msg = "Multiple issues for " ++ id' ++ ": " ++ prev.html_url ++
        " and " ++ cur.html_url :=
  c4_duplicate_fatal envD false 0 1 issueD1 issueD2 "grid" (by decide)
    (by decide) (by decide) (by decide) (by decide)


/-! ### C5: Moved-identity rewriting -/

/-- Claim C5: an issue whose marker names a Moved feature is indexed under
the migration target, not the marker identity; a later reconciliation step
for the target that finds the issue never emits a create intent for the
target. -/
theorem c5_moved_rewrite (features : List (String × FeatureData))
    (browsers : List (String × BrowserData)) (skipF : List (String × String))
    (issue : Issue) (id0 target freshUrl : String) (d0 : FeatureData)
    (hx : extractId issue.body = some id0)
    (hd0 : getVal features id0 = some d0)
    (hk : d0.kind = .moved target) (hne : id0 ≠ target) :
    buildOpenIssues features [issue] [] = .ok [(target, issue)] ∧
    getVal [(target, issue)] target = some issue ∧
    getVal [(target, issue)] id0 = none ∧
    (∀ (dt : FeatureData) (body : String), getVal features target = some dt →
      getVal skipF target = none → dt.discouraged = none →
      issueBody browsers target dt = some body →
      ∃ r, reconcileStep features browsers skipF [(target, issue)] false target
          freshUrl = .ok r ∧
        ∀ (t b : String), r.mutation ≠ some (.create t b)) := by
  have hres : resolveId features issue.body = some target := by
    simp [resolveId, hx, hd0, hk]
  refine ⟨?_, ?_, ?_, ?_⟩
  · simp [buildOpenIssues, hres, getVal]
  · simp [getVal]
  · have hne2 : ¬(target = id0) := fun h => hne h.symm
    simp [getVal, hne2]
  · intro dt body hdt hsk hdis hbody
    have hi : getVal [(target, issue)] target = some issue := by simp [getVal]
    by_cases hst : issue.title = dt.name ∧ issue.body = body
    · refine ⟨⟨none, some ⟨issue.html_url, issue.reactions.plus1⟩⟩, ?_, ?_⟩
      · exact reconcileStep_upToDate hdt hsk hdis hbody hi hst.1 hst.2
      · intro t b
        simp
    · refine ⟨⟨some (.update issue.number dt.name body),
        some ⟨issue.html_url, issue.reactions.plus1⟩⟩, ?_, ?_⟩
      · have := reconcileStep_stale (d := false) (u := freshUrl) hdt hsk hdis
          hbody hi (not_and_or.mp hst)
        simpa using this
      · intro t b
        simp

/-- Claim C5 witness: the Moved-rewrite theorem applied to a synthetic
moved issue, under the empty browser table (the only one for which the
later pass can compute the target's body and reach the reuse branch). -/
theorem c5_witness :
    buildOpenIssues featuresM [issueM] [] = .ok [("grid", issueM)] ∧
    getVal [("grid", issueM)] "grid" = some issueM ∧
    getVal [("grid", issueM)] "old-grid" = none ∧
    (∀ (dt : FeatureData) (body : String), getVal featuresM "grid" = some dt →
      getVal ([] : List (String × String)) "grid" = none → dt.discouraged = none →
      issueBody [] "grid" dt = some body →
      ∃ r, reconcileStep featuresM [] [] [("grid", issueM)] false "grid"
          "https://github.test/new/0" = .ok r ∧
        ∀ (t b : String), r.mutation ≠ some (.create t b)) :=
  c5_moved_rewrite featuresM [] [] issueM "old-grid" "grid"
    "https://github.test/new/0" featMoved (by decide) (by decide) rfl
    (by decide)

/-! ### C3: baseline skip versus create -/

/-- Claim C3 (amended): with no existing issue, a feature with any
Baseline status (low or high) is skipped with no create intent and no
manifest entry; an eligible feature with no Baseline status gets a create
intent with the desired title and body and a manifest entry with vote
count zero. -/
theorem c3_baseline_gate (features : List (String × FeatureData))
    (browsers : List (String × BrowserData)) (skipF : List (String × String))
    (openI : List (String × Issue)) (id freshUrl : String) (data : FeatureData)
    (hf : getVal features id = some data) (hs : getVal skipF id = none)
    (hd : data.discouraged = none) (hi : getVal openI id = none) :
    ((data.status.baseline).isSome → ∀ body, issueBody browsers id data = some body →
      reconcileStep features browsers skipF openI false id freshUrl =
        .ok ⟨none, none⟩) ∧
    (data.status.baseline = none → ∀ body, issueBody browsers id data = some body →
      reconcileStep features browsers skipF openI false id freshUrl =
        .ok ⟨some (.create data.name body), some ⟨freshUrl, 0⟩⟩) := by
  constructor
  · intro hbase body hb
    exact reconcileStep_baselineSkip hf hs hd hb hi hbase
  · intro hbase body hb
    have := reconcileStep_fresh (d := false) (u := freshUrl) hf hs hd hb hi hbase
    simpa using this

/-- Claim C3 counterexample: an eligible feature that has Baseline low
status (so it has NOT reached full/widely-available Baseline) and no
existing issue is skipped: no create intent and no manifest entry, where
the claim promises a create intent. -/
theorem c3_counterexample :
    featLow.status.baseline = some BaselineLevel.low ∧
    featLow.status.baseline ≠ some BaselineLevel.high ∧
    reconcileStep [("grid", featLow)] [] [] [] false "grid"
      "https://github.test/new/0" = .ok ⟨none, none⟩ := by
  refine ⟨rfl, by decide, by rfl⟩

/-- Claim C3 witness: the amended theorem applied to a no-baseline feature
with no issue (under the empty browser table, so that the body
computation completes), producing the create intent and a zero-vote
entry. -/
theorem c3_witness :
    reconcileStep [("grid", featW)] [] [] [] false "grid"
      "https://github.test/new/0" =
      .ok ⟨some (.create featW.name bodyW), some ⟨"https://github.test/new/0", 0⟩⟩ :=
  (c3_baseline_gate [("grid", featW)] [] [] [] "grid"
    "https://github.test/new/0" featW (by decide) rfl rfl rfl).2 rfl bodyW rfl

/-! ### C10: manifest entries for existing issues -/

/-- Claim C10: in live mode an eligible feature with an existing issue
always receives a manifest entry carrying the existing URL and exactly the
thumbs-up reaction count (no other reaction type); when the issue content
already matches, the step is a no-op but the entry is still recorded. -/
theorem c10_entry_for_existing (features : List (String × FeatureData))
    (browsers : List (String × BrowserData)) (skipF : List (String × String))
    (openI : List (String × Issue)) (id freshUrl body : String)
    (data : FeatureData) (issue : Issue)
    (hf : getVal features id = some data) (hs : getVal skipF id = none)
    (hd : data.discouraged = none) (hb : issueBody browsers id data = some body)
    (hi : getVal openI id = some issue) :
    ∃ r, reconcileStep features browsers skipF openI false id freshUrl = .ok r ∧
      r.entry = some ⟨issue.html_url, issue.reactions.plus1⟩ ∧
      (issue.title = data.name → issue.body = body → r.mutation = none) := by
  by_cases hst : issue.title = data.name ∧ issue.body = body
  · refine ⟨⟨none, some ⟨issue.html_url, issue.reactions.plus1⟩⟩, ?_, rfl, ?_⟩
    · exact reconcileStep_upToDate hf hs hd hb hi hst.1 hst.2
    · intro _ _
      rfl
  · refine ⟨⟨some (.update issue.number data.name body),
      some ⟨issue.html_url, issue.reactions.plus1⟩⟩, ?_, rfl, ?_⟩
    · have := reconcileStep_stale (d := false) (u := freshUrl) hf hs hd hb hi
        (not_and_or.mp hst)
      simpa using this
    · intro h1 h2
      exact absurd ⟨h1, h2⟩ hst

/-- Claim C10 witness: the entry theorem applied to an up-to-date issue
whose reaction counts mix several types; the entry carries only the
thumbs-up count. -/
theorem c10_witness :
    ∃ r, reconcileStep [("grid", featW)] [] [] [("grid", issueW)] false
        "grid" "https://github.test/new/0" = .ok r ∧
      r.entry = some ⟨issueW.html_url, issueW.reactions.plus1⟩ ∧
      (issueW.title = featW.name → issueW.body = bodyW → r.mutation = none) :=
  c10_entry_for_existing [("grid", featW)] [] [] [("grid", issueW)]
    "grid" "https://github.test/new/0" bodyW featW issueW (by decide) rfl rfl
    rfl rfl

/-! ### C9: ranking tolerates what issue-body generation does not -/

/-- The ranking-date collection never fails when every supported browser
key is present in the release tables (missing releases are discarded). -/
theorem featureDates_ok {browsers : List (String × BrowserData)} :
    ∀ (sup : List (String × String)) (acc : List String),
      (∀ q ∈ sup, (getVal browsers (q : String × String).1).isSome) →
      ∃ ds, featureDates browsers sup acc = .ok ds := by
  intro sup
  induction sup with
  | nil => intro acc _; exact ⟨acc, rfl⟩
  | cons q t ih =>
    intro acc hall
    obtain ⟨browser, version⟩ := q
    have h1 := hall (browser, version) (List.mem_cons_self _ _)
    simp only [featureDates]
    cases hg : getVal browsers browser with
    | none => rw [hg] at h1; simp at h1
    | some bd =>
      simp only [hg]
      cases hfind : bd.releases.find? (fun r => r.version == stripLeq version) with
      | some rel =>
        simp only [hfind]
        exact ih _ fun q hq => hall q (List.mem_cons_of_mem _ hq)
      | none =>
        simp only [hfind]
        exact ih _ fun q hq => hall q (List.mem_cons_of_mem _ hq)

set_option linter.unusedVariables false in
/-- Claim C9: a feature with a truthy supported version that has no
matching release passes the ranking (the version is discarded, and all
supported browser keys are assumed present in the release table, which is
what lets the ranking succeed) while issue-body generation fails: the
per-browser loop throws at the undeclared `vendor` on its first iteration,
upstream of the unguarded `releases.find(...)!.date` dereference that this
support entry would otherwise hit. -/
theorem c9_ranking_ok_body_fails (browsers : List (String × BrowserData))
    (id : String) (data : FeatureData) (browser version : String)
    (bd : BrowserData)
    (hall : ∀ q ∈ data.status.support,
      (getVal browsers (q : String × String).1).isSome)
    (hver : getVal data.status.support browser = some version)
    (hmem : (browser, bd) ∈ browsers)
    (hne : stripLeq version ≠ "")
    (hfind : bd.releases.find? (fun r => r.version == stripLeq version) = none) :
    (∃ ds, featureDates browsers data.status.support [] = .ok ds) ∧
      issueBody browsers id data = none := by
  refine ⟨featureDates_ok _ [] hall, ?_⟩
  cases browsers with
  | nil => simp at hmem
  | cons p t => rfl

/-- Claim C9 witness: the asymmetry theorem applied to the unshippable
version. -/
theorem c9_witness :
    (∃ ds, featureDates browsersW featX.status.support [] = .ok ds) ∧
      issueBody browsersW "grid" featX = none :=
  c9_ranking_ok_body_fails browsersW "grid" featX "chrome" "999"
    ⟨"Chrome", [⟨"110", "2023-02-07"⟩]⟩ (by decide) (by decide) (by decide)
    (by decide) (by decide)


/-! ### C6: the ranking key -/

/-- A lexicographically smaller character list compares `charLe`. -/
theorem charLe_of_lt : ∀ {a b : List Char}, a < b → charLe a b = true := by
  intro a b h
  induction h with
  | nil => rfl
  | cons _ ih => simp [charLe, ih]
  | rel hab => simp [charLe, hab]

/-- Inserting an element that compares at most the trailing sentinel keeps
the sentinel last. -/
theorem insertStr_append_big {x s : String} (h : strLe x s = true) :
    ∀ l, insertStr x (l ++ [s]) = insertStr x l ++ [s] := by
  intro l
  induction l with
  | nil => simp [insertStr, h]
  | cons y t ih =>
    simp only [List.cons_append, insertStr]
    by_cases hxy : strLe x y
    · simp [hxy]
    · simp [hxy, ih]

/-- Sorting a list of dates with the sentinel appended sorts the dates and
keeps the sentinel last, when every date compares at most the sentinel. -/
theorem sortStrings_append_big {s : String} :
    ∀ ds, (∀ d ∈ ds, strLe d s = true) →
      sortStrings (ds ++ [s]) = sortStrings ds ++ [s] := by
  intro ds
  induction ds with
  | nil => intro _; simp [sortStrings, insertStr]
  | cons d t ih =>
    intro hall
    simp only [List.cons_append, sortStrings, List.append_eq]
    rw [ih fun d hd => hall d (List.mem_cons_of_mem _ hd)]
    exact insertStr_append_big (hall d (List.mem_cons_self _ _)) _

/-- Membership through insertion. -/
theorem mem_insertStr {y x : String} :
    ∀ {l : List String}, y ∈ insertStr x l → y = x ∨ y ∈ l := by
  intro l
  induction l with
  | nil => intro h; simpa [insertStr] using h
  | cons z t ih =>
    intro h
    simp only [insertStr] at h
    by_cases hxz : strLe x z
    · simp only [hxz, if_true] at h
      rcases List.mem_cons.mp h with h1 | h2
      · exact Or.inl h1
      · exact Or.inr h2
    · simp only [hxz, if_false] at h
      rcases List.mem_cons.mp h with h1 | h2
      · exact Or.inr (h1 ▸ List.mem_cons_self _ _)
      · rcases ih h2 with h3 | h4
        · exact Or.inl h3
        · exact Or.inr (List.mem_cons_of_mem _ h4)

/-- Membership through the sort. -/
theorem mem_sortStrings {y : String} :
    ∀ {l : List String}, y ∈ sortStrings l → y ∈ l := by
  intro l
  induction l with
  | nil => intro h; simp [sortStrings] at h
  | cons x t ih =>
    intro h
    simp only [sortStrings] at h
    rcases mem_insertStr h with h1 | h2
    · exact h1 ▸ List.mem_cons_self _ _
    · exact List.mem_cons_of_mem _ (ih h2)

theorem insertStr_length (x : String) :
    ∀ l, (insertStr x l).length = l.length + 1 := by
  intro l
  induction l with
  | nil => rfl
  | cons y t ih =>
    simp only [insertStr]
    by_cases hxy : strLe x y
    · simp [hxy]
    · simp [hxy, ih]

theorem sortStrings_length : ∀ l, (sortStrings l).length = l.length := by
  intro l
  induction l with
  | nil => rfl
  | cons x t ih => simp [sortStrings, insertStr_length, ih]

/-- Extending the smaller side of a same-length lexicographic comparison
on the right preserves it. -/
theorem list_lt_append_left :
    ∀ {a b : List Char}, a < b → a.length = b.length →
      ∀ (m : List Char), a ++ m < b := by
  intro a b h
  induction h with
  | nil => intro hlen; simp at hlen
  | cons _ ih =>
    intro hlen m
    simp only [List.length_cons, Nat.succ.injEq] at hlen
    exact List.Lex.cons (ih hlen m)
  | rel hab => intro _ m; exact List.Lex.rel hab

set_option maxRecDepth 4096 in
/-- Claim C6: a Normal feature's ranking key is the ascending sort of its
found release dates followed by the sentinel, joined with `"+"` (first
conjunct, for real dates below the sentinel); the feature supported at
2020-01-01 and 2019-06-01 gets key `2019-06-01+2020-01-01+9999-99-99`
(second conjunct); and the key of a feature with no real date is the
sentinel alone, which sorts strictly after that of any feature with at
least one ten-character real date, under the lexicographic order on keys
(third conjunct). -/
theorem c6_ranking_key :
    (∀ (browsers : List (String × BrowserData)) (data : FeatureData)
        (ds : List String),
      featureDates browsers data.status.support [] = .ok ds →
      (∀ d ∈ ds, strLe d sentinel = true) →
      sortKeyOf browsers data = .ok (joinSep "+" (sortStrings ds ++ [sentinel]))) ∧
    sortKeyOf browsersR featR = .ok "2019-06-01+2020-01-01+9999-99-99" ∧
    (∀ (browsers : List (String × BrowserData)) (dataA dataN : FeatureData)
        (ds : List String),
      featureDates browsers dataA.status.support [] = .ok ds → ds ≠ [] →
      (∀ d ∈ ds, d.data.length = 10 ∧ d.data < sentinel.data) →
      featureDates browsers dataN.status.support [] = .ok [] →
      ∃ kA, sortKeyOf browsers dataA = .ok kA ∧
        sortKeyOf browsers dataN = .ok sentinel ∧ kA.data < sentinel.data) := by
  have key_eq : ∀ (browsers : List (String × BrowserData)) (data : FeatureData)
      (ds : List String),
      featureDates browsers data.status.support [] = .ok ds →
      (∀ d ∈ ds, strLe d sentinel = true) →
      sortKeyOf browsers data = .ok (joinSep "+" (sortStrings ds ++ [sentinel])) := by
    intro browsers data ds hds hall
    unfold sortKeyOf
    rw [hds]
    simp only [Except.map]
    rw [sortStrings_append_big ds hall]
  refine ⟨key_eq, by rfl, ?_⟩
  intro browsers dataA dataN ds hdsA hne hall hdsN
  have hallLe : ∀ d ∈ ds, strLe d sentinel = true := fun d hd =>
    charLe_of_lt (hall d hd).2
  have hkA := key_eq browsers dataA ds hdsA hallLe
  have hkN : sortKeyOf browsers dataN = .ok sentinel := by
    unfold sortKeyOf
    rw [hdsN]
    rfl
  refine ⟨joinSep "+" (sortStrings ds ++ [sentinel]), hkA, hkN, ?_⟩
  have hsne : sortStrings ds ≠ [] := by
    intro h
    have := sortStrings_length ds
    rw [h] at this
    exact hne (List.length_eq_zero.mp this.symm)
  obtain ⟨d0, rest, hde⟩ := List.exists_cons_of_ne_nil hsne
  have hd0mem : d0 ∈ ds := mem_sortStrings (hde ▸ List.mem_cons_self _ _)
  obtain ⟨hd0len, hd0lt⟩ := hall d0 hd0mem
  have hjoin : ∃ t, joinSep "+" (sortStrings ds ++ [sentinel]) =
      d0 ++ "+" ++ t := by
    rw [hde]
    cases rest with
    | nil => exact ⟨sentinel, rfl⟩
    | cons r rs => exact ⟨joinSep "+" ((r :: rs) ++ [sentinel]), rfl⟩
  obtain ⟨t, ht⟩ := hjoin
  rw [ht]
  have hdata : (d0 ++ "+" ++ t).data = d0.data ++ ("+".data ++ t.data) := by
    simp [String.data_append, List.append_assoc]
  rw [hdata]
  have hslen : sentinel.data.length = 10 := by decide
  exact list_lt_append_left hd0lt (by rw [hd0len, hslen]) _


/-! ### C7: idempotence -/

/-- With unique keys, membership determines the lookup. -/
theorem getVal_of_mem_nodup {α : Type} :
    ∀ {l : List (String × α)} {id : String} {v : α},
      (l.map Prod.fst).Nodup → (id, v) ∈ l → getVal l id = some v := by
  intro l
  induction l with
  | nil => intro id v _ h; simp at h
  | cons p t ih =>
    intro id v hnod hmem
    obtain ⟨k, w⟩ := p
    simp only [List.map_cons, List.nodup_cons] at hnod
    rcases List.mem_cons.mp hmem with h1 | h2
    · injection h1 with h1a h1b
      subst h1a h1b
      simp [getVal]
    · have hk : k ≠ id := by
        intro he
        subst he
        exact hnod.1 (List.mem_map_of_mem Prod.fst h2)
      simp only [getVal, hk, if_false]
      exact ih hnod.2 h2

/-- The ranking pass succeeds when no record has an unknown kind and every
supported browser key of every Normal record is present in the release
tables. -/
theorem computeSortKeys_ok {f : List (String × FeatureData)}
    {b : List (String × BrowserData)} :
    ∀ (l : List (String × FeatureData)) (acc : List (String × String)),
      (∀ p ∈ l, ∀ s, (p : String × FeatureData).2.kind ≠ .other s) →
      (∀ p ∈ l, (p : String × FeatureData).2.kind = .feature →
        ∀ q ∈ p.2.status.support, (getVal b (q : String × String).1).isSome) →
      ∃ ks, computeSortKeys f b l acc = .ok ks := by
  intro l
  induction l with
  | nil => intro acc _ _; exact ⟨acc, rfl⟩
  | cons p t ih =>
    intro acc hk hb
    obtain ⟨id, data⟩ := p
    have hkt : ∀ p ∈ t, ∀ s, (p : String × FeatureData).2.kind ≠ .other s :=
      fun p hp => hk p (List.mem_cons_of_mem _ hp)
    have hbt : ∀ p ∈ t, (p : String × FeatureData).2.kind = .feature →
        ∀ q ∈ p.2.status.support, (getVal b (q : String × String).1).isSome :=
      fun p hp => hb p (List.mem_cons_of_mem _ hp)
    simp only [computeSortKeys]
    cases hkd : data.kind with
    | feature =>
      obtain ⟨ds, hds⟩ := featureDates_ok data.status.support []
        (hb (id, data) (List.mem_cons_self _ _) hkd)
      have hsk : sortKeyOf b data = .ok (joinSep "+" (sortStrings (ds ++ [sentinel]))) := by
        unfold sortKeyOf
        rw [hds]
        rfl
      rw [hsk]
      exact ih _ hkt hbt
    | moved target => exact ih _ hkt hbt
    | split => exact ih _ hkt hbt
    | other s => exact absurd hkd (hk (id, data) (List.mem_cons_self _ _) s)

/-- Every id the ranking emits comes from a Normal-kind record (or was
already accumulated). -/
theorem computeSortKeys_mem {f : List (String × FeatureData)}
    {b : List (String × BrowserData)} :
    ∀ (l : List (String × FeatureData)) (acc ks : List (String × String)),
      computeSortKeys f b l acc = .ok ks →
      ∀ id ∈ ks.map Prod.fst, id ∈ acc.map Prod.fst ∨
        ∃ data, (id, data) ∈ l ∧ data.kind = .feature := by
  intro l
  induction l with
  | nil =>
    intro acc ks h id hid
    simp only [computeSortKeys] at h
    cases h
    exact Or.inl hid
  | cons p t ih =>
    intro acc ks h id hid
    obtain ⟨id', data⟩ := p
    simp only [computeSortKeys] at h
    cases hkd : data.kind with
    | feature =>
      rw [hkd] at h
      cases hsk : sortKeyOf b data with
      | error e => rw [hsk] at h; exact Except.noConfusion h
      | ok k =>
        rw [hsk] at h
        rcases ih _ ks h id hid with h1 | ⟨d2, h2, h3⟩
        · simp only [List.map_append, List.mem_append] at h1
          rcases h1 with h1a | h1b
          · exact Or.inl h1a
          · simp at h1b
            subst h1b
            exact Or.inr ⟨data, List.mem_cons_self _ _, hkd⟩
        · exact Or.inr ⟨d2, List.mem_cons_of_mem _ h2, h3⟩
    | moved target =>
      rw [hkd] at h
      rcases ih _ ks h id hid with h1 | ⟨d2, h2, h3⟩
      · exact Or.inl h1
      · exact Or.inr ⟨d2, List.mem_cons_of_mem _ h2, h3⟩
    | split =>
      rw [hkd] at h
      rcases ih _ ks h id hid with h1 | ⟨d2, h2, h3⟩
      · exact Or.inl h1
      · exact Or.inr ⟨d2, List.mem_cons_of_mem _ h2, h3⟩
    | other s =>
      rw [hkd] at h
      exact Except.noConfusion h

/-- Membership through the ranked insertion. -/
theorem mem_insertRanked {collate : String → String → Ordering}
    {keys : List (String × String)} {y x : String} :
    ∀ {l : List String}, y ∈ insertRanked collate keys x l → y = x ∨ y ∈ l := by
  intro l
  induction l with
  | nil => intro h; simpa [insertRanked] using h
  | cons z t ih =>
    intro h
    simp only [insertRanked] at h
    by_cases hc : collate (keyFor keys x) (keyFor keys z) = Ordering.lt
    · simp only [hc, if_true] at h
      rcases List.mem_cons.mp h with h1 | h2
      · exact Or.inl h1
      · exact Or.inr h2
    · simp only [hc, if_false] at h
      rcases List.mem_cons.mp h with h1 | h2
      · exact Or.inr (h1 ▸ List.mem_cons_self _ _)
      · rcases ih h2 with h3 | h4
        · exact Or.inl h3
        · exact Or.inr (List.mem_cons_of_mem _ h4)

/-- Membership through the ranked sort. -/
theorem mem_rankSort {collate : String → String → Ordering}
    {keys : List (String × String)} {y : String} :
    ∀ {l : List String}, y ∈ rankSort collate keys l → y ∈ l := by
  intro l
  induction l with
  | nil => intro h; simp [rankSort] at h
  | cons x t ih =>
    intro h
    simp only [rankSort] at h
    rcases mem_insertRanked h with h1 | h2
    · exact h1 ▸ List.mem_cons_self _ _
    · exact List.mem_cons_of_mem _ (ih h2)

/-- A loop whose every step is an intentless no-op adds no mutations and
finishes cleanly. -/
theorem loop_no_mutations (env : Env) (o : List (String × Issue)) (d : Bool) :
    ∀ (ids : List String),
      (∀ id ∈ ids, ∀ url, ∃ r, reconcileStep env.features env.browsers
        env.skipFeatures o d id url = .ok r ∧ r.mutation = none) →
      ∀ (n : Nat) (muts : List Mutation) (mani : List (String × ManifestEntry)),
        ∃ mani', reconcileLoop env o d ids n muts mani = (muts, mani', none) := by
  intro ids
  induction ids with
  | nil => intro _ n muts mani; exact ⟨mani, rfl⟩
  | cons id rest ih =>
    intro h n muts mani
    obtain ⟨r, hr, hm⟩ := h id (List.mem_cons_self _ _) (env.createUrls n)
    simp only [reconcileLoop, hr, hm, Option.toList_none, List.append_nil]
    exact ih (fun i hi => h i (List.mem_cons_of_mem _ hi)) n muts _

/-- Claim C7: the engine is idempotent.  If the tracker state reached
after a successful live run is run again (every issue for an eligible
feature now carries the desired title and body, and every eligible
feature with no Baseline status has an issue), the second run emits zero
create intents and zero update intents and finishes cleanly. -/
theorem c7_idempotent (env : Env) (open2 : List (String × Issue))
    (hnodup : (env.features.map Prod.fst).Nodup)
    (hopen : buildOpenIssues env.features env.issues [] = .ok open2)
    (hkinds : ∀ p ∈ env.features, ∀ s,
      (p : String × FeatureData).2.kind ≠ .other s)
    (hbrowsers : ∀ p ∈ env.features,
      (p : String × FeatureData).2.kind = .feature →
      ∀ q ∈ p.2.status.support, (getVal env.browsers (q : String × String).1).isSome)
    (hstate : ∀ id data, getVal env.features id = some data →
      data.kind = .feature → getVal env.skipFeatures id = none →
      data.discouraged = none →
      ∃ body, issueBody env.browsers id data = some body ∧
        (∀ issue, getVal open2 id = some issue →
          issue.title = data.name ∧ issue.body = body) ∧
        (data.status.baseline = none → (getVal open2 id).isSome)) :
    (update env false).mutations = [] ∧ (update env false).error = none := by
  obtain ⟨ks, hks⟩ := computeSortKeys_ok env.features [] hkinds hbrowsers
  have hsteps : ∀ id ∈ rankSort env.collate ks (ks.map Prod.fst), ∀ url,
      ∃ r, reconcileStep env.features env.browsers env.skipFeatures open2
        false id url = .ok r ∧ r.mutation = none := by
    intro id hid url
    have hid2 := mem_rankSort hid
    rcases computeSortKeys_mem env.features [] ks hks id hid2 with h1 | ⟨data, hd, hkd⟩
    · simp at h1
    · have hf : getVal env.features id = some data := getVal_of_mem_nodup hnodup hd
      cases hs : getVal env.skipFeatures id with
      | some reason => exact ⟨⟨none, none⟩, reconcileStep_skip hf hs, rfl⟩
      | none =>
        cases hdis : data.discouraged with
        | some dd =>
          exact ⟨⟨none, none⟩,
            reconcileStep_discouraged hf hs (by simp [hdis]), rfl⟩
        | none =>
          obtain ⟨body, hb, hiss, hbase⟩ := hstate id data hf hkd hs hdis
          cases hi : getVal open2 id with
          | some issue =>
            obtain ⟨ht, hbo⟩ := hiss issue hi
            exact ⟨⟨none, some ⟨issue.html_url, issue.reactions.plus1⟩⟩,
              reconcileStep_upToDate hf hs hdis hb hi ht hbo, rfl⟩
          | none =>
            cases hbl : data.status.baseline with
            | some lvl =>
              exact ⟨⟨none, none⟩,
                reconcileStep_baselineSkip hf hs hdis hb hi (by simp [hbl]), rfl⟩
            | none =>
              have := hbase hbl
              rw [hi] at this
              simp at this
  obtain ⟨mani', hl⟩ := loop_no_mutations env open2 false
    (rankSort env.collate ks (ks.map Prod.fst)) hsteps 0 [] []
  unfold update
  rw [hopen]
  dsimp only
  rw [hks]
  dsimp only
  rw [hl]
  exact ⟨rfl, rfl⟩


/-- Claim C7 witness: the idempotence theorem applied to `env7`. -/
theorem c7_witness :
    (update env7 false).mutations = [] ∧ (update env7 false).error = none := by
  refine c7_idempotent env7 [("grid", issueS)] (by decide) (by rfl) ?_ ?_ ?_
  · intro p hp srep
    fin_cases hp <;> simp [featW, featHigh]
  · intro p hp hk q hq
    fin_cases hp <;> simp [featW, featHigh, statusHigh] at hq
  · intro id data hf hk hsk hdis
    have hmem := getVal_mem hf
    simp only [env7, List.mem_cons, List.mem_singleton] at hmem
    rcases hmem with h1 | h2
    · injection h1 with h1a h1b
      subst h1a
      rw [show getVal env7.skipFeatures "grid" =
        some "mozilla position is negative: u" from rfl] at hsk
      exact Option.noConfusion hsk
    · rcases h2 with h2 | h2
      · injection h2 with h2a h2b
        subst h2a h2b
        refine ⟨(issueBody [] "done-feature" featHigh).getD "", rfl, ?_, ?_⟩
        · intro issue hiss
          rw [show getVal [("grid", issueS)] "done-feature" = none from rfl] at hiss
          exact Option.noConfusion hiss
        · intro hbl
          rw [show featHigh.status.baseline = some .high from rfl] at hbl
          exact Option.noConfusion hbl
      · simp at h2


/-! ### C8: the marker round-trip

The extraction scans the body left to right for the first position where
the marker pattern matches.  The development below shows that, when the
interpolated fields contain no `<` character, no position before the
trailing marker matches, and the marker itself captures exactly the
identity. -/

theorem cleanSeg_nil : CleanSeg [] := fun _ => rfl

theorem cleanSeg_append {a b : List Char} (ha : CleanSeg a) (hb : CleanSeg b) :
    CleanSeg (a ++ b) := by
  intro m
  rw [List.append_assoc, ha, hb]

/-- No match can start at a character other than `<`. -/
theorem matchCore_ne_lt {c : Char} {t : List Char} (h : c ≠ '<') :
    matchCore (c :: t) = none := by
  have h2 : ¬('<' = c) := fun he => h he.symm
  simp [matchCore, stripTok, h2]

/-- No match can start at a `<` that is not followed by `!`. -/
theorem matchCore_lt_not_bang {b : Char} {t : List Char} (h : b ≠ '!') :
    matchCore ('<' :: b :: t) = none := by
  have h2 : ¬('!' = b) := fun he => h he.symm
  simp [matchCore, stripTok, h2]

/-- No match can start at `<!` not followed by `-`. -/
theorem matchCore_ltbang_not_dash {b : Char} {t : List Char} (h : b ≠ '-') :
    matchCore ('<' :: '!' :: b :: t) = none := by
  have h2 : ¬('-' = b) := fun he => h he.symm
  simp [matchCore, stripTok, h2]

/-- No match can start at `<!-` not followed by a second `-`. -/
theorem matchCore_ltbangdash_not_dash {b : Char} {t : List Char} (h : b ≠ '-') :
    matchCore ('<' :: '!' :: '-' :: b :: t) = none := by
  have h2 : ¬('-' = b) := fun he => h he.symm
  simp [matchCore, stripTok, h2]

theorem execList_cons_none {c : Char} {t : List Char}
    (h : matchCore (c :: t) = none) : execList (c :: t) = execList t := by
  simp [execList, h]

/-- A `<`-free segment is clean. -/
theorem cleanSeg_of_no_lt : ∀ {l : List Char}, NoLt l → CleanSeg l := by
  intro l
  induction l with
  | nil => intro _; exact cleanSeg_nil
  | cons c t ih =>
    intro h m
    have hc : c ≠ '<' := h c (List.mem_cons_self _ _)
    rw [List.cons_append, execList_cons_none (matchCore_ne_lt hc)]
    exact ih (fun d hd => h d (List.mem_cons_of_mem _ hd)) m

/-- Whitespace skipping stops inside the segment, stable under appending. -/
theorem dropWs_append_of_ne_nil :
    ∀ {r : List Char}, dropWs r ≠ [] → ∀ m, dropWs (r ++ m) = dropWs r ++ m := by
  intro r
  induction r with
  | nil => intro h; simp [dropWs] at h
  | cons c t ih =>
    intro h m
    by_cases hw : isWsChar c
    · simp only [dropWs, hw, if_true] at h ⊢
      exact ih h m
    · simp [dropWs, hw]

/-- Soundness of the scan: a scan-safe segment is clean. -/
theorem cleanSeg_of_scanSafe : ∀ {l : List Char}, scanSafe l = true → CleanSeg l := by
  intro l
  induction l with
  | nil => intro _; exact cleanSeg_nil
  | cons c t ih =>
    intro h
    simp only [scanSafe, Bool.and_eq_true] at h
    obtain ⟨hhead, htail⟩ := h
    have hct : CleanSeg t := ih htail
    by_cases hc : c = '<'
    · subst hc
      rw [if_pos rfl] at hhead
      intro m
      simp only [List.cons_append]
      cases t with
      | nil => simp [ltHeadOk] at hhead
      | cons b t' =>
        by_cases hb : b = '!'
        · subst hb
          cases t' with
          | nil => simp [ltHeadOk] at hhead
          | cons b2 t2 =>
            by_cases hb2 : b2 = '-'
            · subst hb2
              cases t2 with
              | nil => simp [ltHeadOk] at hhead
              | cons b3 t3 =>
                by_cases hb3 : b3 = '-'
                · subst hb3
                  simp only [ltHeadOk] at hhead
                  cases hdr : dropWs t3 with
                  | nil => rw [hdr] at hhead; simp at hhead
                  | cons d r' =>
                    rw [hdr] at hhead
                    simp only [bne_iff_ne, ne_eq] at hhead
                    have hmc :
                        matchCore ('<' :: '!' :: '-' :: '-' :: (t3 ++ m)) = none := by
                      have hr : dropWs (t3 ++ m) = d :: (r' ++ m) := by
                        rw [dropWs_append_of_ne_nil (by rw [hdr]; exact List.cons_ne_nil d r') m, hdr]
                        rfl
                      have h2 : ¬('w' = d) := fun he => hhead he.symm
                      simp [matchCore, stripTok, hr, h2]
                    simp only [List.cons_append]
                    rw [show execList ('<' :: '!' :: '-' :: '-' :: (t3 ++ m)) =
                        execList ('!' :: '-' :: '-' :: (t3 ++ m)) from
                      execList_cons_none hmc]
                    have := hct m
                    simpa using this
                · simp only [List.cons_append]
                  rw [execList_cons_none (matchCore_ltbangdash_not_dash hb3)]
                  have := hct m
                  simpa using this
            · simp only [List.cons_append]
              rw [execList_cons_none (matchCore_ltbang_not_dash hb2)]
              have := hct m
              simpa using this
        · simp only [List.cons_append]
          rw [execList_cons_none (matchCore_lt_not_bang hb)]
          have := hct m
          simpa using this
    · intro m
      rw [List.cons_append, execList_cons_none (matchCore_ne_lt hc)]
      exact hct m


/-! #### Matching the trailing marker -/

theorem stripTok_prefix : ∀ (p s : List Char), stripTok p (p ++ s) = some s := by
  intro p
  induction p with
  | nil => intro s; rfl
  | cons c t ih => intro s; simp [stripTok, ih]

theorem idChar_ne_lt {c : Char} (h : isIdChar c = true) : c ≠ '<' := by
  intro he
  subst he
  exact absurd h (by decide)

theorem idChar_not_ws {c : Char} (h : isIdChar c = true) : isWsChar c = false := by
  simp only [isIdChar, Bool.or_eq_true, Bool.and_eq_true, decide_eq_true_eq,
    beq_iff_eq] at h
  simp only [isWsChar, Bool.or_eq_false_iff, beq_eq_false_iff_ne, ne_eq,
    Bool.and_eq_false_iff, decide_eq_false_iff_not, not_le]
  omega

theorem takeWhile_append_of {p : Char → Bool} :
    ∀ (l r : List Char), (∀ c ∈ l, p c = true) →
      (∀ c ∈ r.head?, p c = false) →
      (l ++ r).takeWhile p = l ∧ (l ++ r).dropWhile p = r := by
  intro l
  induction l with
  | nil =>
    intro r _ hr
    cases r with
    | nil => exact ⟨rfl, rfl⟩
    | cons c r' =>
      have hc := hr c rfl
      simp [List.takeWhile, List.dropWhile, hc]
  | cons x t ih =>
    intro r hl hr
    have hx := hl x (List.mem_cons_self _ _)
    obtain ⟨h1, h2⟩ := ih r (fun c hc => hl c (List.mem_cons_of_mem _ hc)) hr
    simp [List.takeWhile, List.dropWhile, hx, h1, h2]

/-- The greedy capture accepts the whole run when the first candidate
already matches. -/
theorem greedy_full {run rest : List Char} (h0 : run ≠ [])
    (hok : tailOk rest = true) : greedyGo rest run.reverse [] = some run := by
  cases hrev : run.reverse with
  | nil => exact absurd (by simpa using hrev) h0
  | cons d rr =>
    have : greedyGo rest (d :: rr) [] =
        if tailOk ([] ++ rest) then some (d :: rr).reverse
        else greedyGo rest rr [d] := rfl
    rw [this, List.nil_append, hok, if_pos rfl, ← hrev, List.reverse_reverse]

theorem matchCore_marker {id : List Char} (h0 : id ≠ [])
    (h1 : ∀ c ∈ id, isIdChar c = true) :
    matchCore ("<!-- web-features:".data ++ (id ++ " -->".data)) = some id := by
  obtain ⟨c, t, hct⟩ := List.exists_cons_of_ne_nil h0
  subst hct
  have hred : matchCore ("<!-- web-features:".data ++ (c :: t ++ " -->".data)) =
      greedyGo ((dropWs (c :: (t ++ " -->".data))).dropWhile isIdChar)
        ((dropWs (c :: (t ++ " -->".data))).takeWhile isIdChar).reverse [] := rfl
  rw [hred]
  have hcws : isWsChar c = false := idChar_not_ws (h1 c (List.mem_cons_self _ _))
  have hdw : dropWs (c :: (t ++ " -->".data)) = c :: (t ++ " -->".data) := by
    simp [dropWs, hcws]
  rw [hdw]
  have hsplit := takeWhile_append_of (c :: t) " -->".data h1
    (by intro ch hch; simp at hch; subst hch; decide)
  rw [show c :: (t ++ " -->".data) = (c :: t) ++ " -->".data from rfl,
    hsplit.1, hsplit.2]
  exact greedy_full (List.cons_ne_nil c t) (by decide)

theorem execList_marker {id : List Char} (h0 : id ≠ [])
    (h1 : ∀ c ∈ id, isIdChar c = true) :
    execList ("<!-- web-features:".data ++ (id ++ " -->".data)) = some id := by
  have hm : matchCore ('<' :: ("!-- web-features:".data ++ (id ++ " -->".data))) =
      some id := matchCore_marker h0 h1
  have he : execList ("<!-- web-features:".data ++ (id ++ " -->".data)) =
      execList ('<' :: ("!-- web-features:".data ++ (id ++ " -->".data))) := rfl
  rw [he]
  rw [show execList ('<' :: ("!-- web-features:".data ++ (id ++ " -->".data))) =
      (match matchCore ('<' :: ("!-- web-features:".data ++ (id ++ " -->".data))) with
       | some cap => some cap
       | none => execList ("!-- web-features:".data ++ (id ++ " -->".data))) from rfl]
  rw [hm]


/-! #### The interpolated pieces are free of markup starts -/

theorem noLt_append {a b : List Char} (ha : NoLt a) (hb : NoLt b) :
    NoLt (a ++ b) := by
  intro c hc
  rcases List.mem_append.mp hc with h | h
  · exact ha c h
  · exact hb c h

theorem noLtS_append {a b : String} (ha : NoLtS a) (hb : NoLtS b) :
    NoLtS (a ++ b) := by
  unfold NoLtS
  rw [String.data_append]
  exact noLt_append ha hb

theorem cleanSeg_elim {l : List Char} (h : CleanSeg l) (m : List Char) :
    execList (l ++ m) = execList m := h m

/-! #### Clean segments of the support block -/

/-- The only support block a generated body ever carries is the one for
the empty summary and empty line list (the per-browser loop throws for
any nonempty browser table); it contains no position where the marker
pattern could start a match. -/
theorem cleanSeg_supportBlock : CleanSeg (supportBlockOf [] []).data :=
  cleanSeg_of_scanSafe (by decide)


/-! #### The round-trip itself -/

theorem cleanSeg_caniuseLine {o : Option String}
    (h : ∀ s, o = some s → NoLtS s) : CleanSeg (caniuseLine o).data := by
  cases o with
  | none => exact cleanSeg_nil
  | some s2 =>
    by_cases hs : s2 = ""
    · simp only [caniuseLine, hs, if_pos rfl]
      exact cleanSeg_nil
    · simp only [caniuseLine, hs, if_false]
      refine cleanSeg_of_no_lt ?_
      rw [String.data_append, String.data_append]
      exact noLt_append (noLt_append (by decide) (h s2 rfl)) (by decide)

set_option maxRecDepth 100000 in
set_option maxHeartbeats 2000000 in
/-- The generated issue body round-trips through the marker extraction:
when the identity is nonempty, consists of `[a-z0-9-]` characters, and
none of the interpolated fields contains a `<` character, the first match
of the marker pattern in the body is the trailing marker, and its capture
is exactly the identity.  A body only exists for the empty browser table
(the per-browser loop throws otherwise), so its support block is the
constant empty one. -/
theorem issueBody_roundtrip {browsers : List (String × BrowserData)}
    {id : String} {data : FeatureData} {body : String}
    (hid0 : id.data ≠ []) (hidc : ∀ c ∈ id.data, isIdChar c = true)
    (hname : NoLtS data.name) (hdesc : NoLtS data.description_html)
    (hcan : ∀ s, data.caniuse = some s → NoLtS s) (hspec : NoLtS data.spec)
    (hbody : issueBody browsers id data = some body) :
    extractId body = some id := by
  have hidlt : NoLt id.data := fun c hc => idChar_ne_lt (hidc c hc)
  cases browsers with
  | cons p t => exact Option.noConfusion hbody
  | nil =>
    simp only [issueBody, supportRows] at hbody
    have hbe := Option.some.inj hbody
    subst hbe
    have c1 : CleanSeg
        ("_This GitHub issue is for collecting web developer signals for ").data :=
      cleanSeg_of_no_lt (by decide)
    have c2 : CleanSeg segAfterName.data := cleanSeg_of_no_lt (by decide)
    have c3 : CleanSeg segBeforeSupport.data := cleanSeg_of_no_lt (by decide)
    have c4 : CleanSeg (supportBlockOf [] []).data := cleanSeg_supportBlock
    have c5 : CleanSeg segMiddle.data := cleanSeg_of_scanSafe (by decide)
    have c6 : CleanSeg (caniuseLine data.caniuse).data := cleanSeg_caniuseLine hcan
    have c7 : CleanSeg segExplorer.data := cleanSeg_of_no_lt (by decide)
    have c8 : CleanSeg segWebstatus.data := cleanSeg_of_no_lt (by decide)
    have c9 : CleanSeg segSpecLink.data := cleanSeg_of_no_lt (by decide)
    have c10 : CleanSeg (")\n\n").data := cleanSeg_of_no_lt (by decide)
    have cname : CleanSeg data.name.data := cleanSeg_of_no_lt hname
    have cdesc : CleanSeg data.description_html.data := cleanSeg_of_no_lt hdesc
    have cspec : CleanSeg data.spec.data := cleanSeg_of_no_lt hspec
    have cid : CleanSeg id.data := cleanSeg_of_no_lt hidlt
    unfold extractId
    rw [show segMarkerOpen = ")\n\n" ++ "<!-- web-features:" from rfl]
    simp only [String.data_append, List.append_assoc]
    rw [cleanSeg_elim c1, cleanSeg_elim cname, cleanSeg_elim c2,
      cleanSeg_elim cdesc, cleanSeg_elim c3, cleanSeg_elim c4,
      cleanSeg_elim c5, cleanSeg_elim c6, cleanSeg_elim c7,
      cleanSeg_elim cid, cleanSeg_elim c8, cleanSeg_elim cid,
      cleanSeg_elim c9, cleanSeg_elim cspec, cleanSeg_elim c10,
      execList_marker hid0 hidc]
    rfl


/-- Claim C8 (amended): for every nonempty identity made of lowercase
letters, digits and hyphens, and every feature record whose interpolated
fields (name, description, caniuse key, spec URL) contain no `<`
character, whenever body generation succeeds — which, with the
per-browser loop throwing at the undeclared `vendor`, happens exactly for
the empty browser table — the marker pattern applied to the generated
issue body succeeds and captures exactly that identity. -/
theorem c8_marker_roundtrip (browsers : List (String × BrowserData))
    (id : String) (data : FeatureData) (body : String)
    (hid0 : id ≠ "") (hidc : ∀ c ∈ id.data, isIdChar c = true)
    (hname : NoLtS data.name) (hdesc : NoLtS data.description_html)
    (hcan : ∀ s, data.caniuse = some s → NoLtS s) (hspec : NoLtS data.spec)
    (hbody : issueBody browsers id data = some body) :
    extractId body = some id := by
  refine issueBody_roundtrip ?_ hidc hname hdesc hcan hspec hbody
  intro h
  apply hid0
  obtain ⟨d⟩ := id
  rw [show String.mk d = ⟨d⟩ from rfl]
  have : d = [] := h
  rw [this]

set_option maxRecDepth 20000 in
/-- Claim C8 counterexample: the extraction returns the first match, so a
record whose description embeds a marker-shaped comment makes round-trip
extraction return that identity instead of the one that generated the
body. -/
theorem c8_counterexample :
    ((issueBody [] "grid" featE).bind fun b => extractId b) = some "evil" ∧
      ("evil" : String) ≠ "grid" := by
  constructor
  · decide
  · decide

/-- Claim C8 witness: the amended round-trip theorem applied to the
engine-generated `featW` body (built against the empty browser table, the
only one the staged `issueBody` survives). -/
theorem c8_witness : extractId bodyW = some "grid" :=
  c8_marker_roundtrip [] "grid" featW bodyW (by decide) (by decide)
    (by decide) (by decide) (by intro s2 hs; cases hs) (by decide) rfl

end DevSignals
